import Mathlib

/-!
Verification of the quadrature code-generation transformer
(`ffc/quadrature/quadraturetransformer.py`) and the dolfin wrapper
encapsulation (`ffc/wrappers.py`).

A code map sends a component key (tuple of small naturals) to either an
emitted code token (a string) or the symbolic-zero sentinel (Python `None`),
modelled as `Option Token` with `none` for symbolic zero.  Python dicts are
modelled as insertion-ordered association lists with unique keys.
-/

/-- A component key: an ordered tuple of component indices; `[]` is rank-0. -/
abbrev Key := List Nat

/-- An emitted code token (opaque string-like value). -/
abbrev Token := String

/-- A component-indexed code map: key to token-or-symbolic-zero. -/
abbrev CodeMap := List (Key × Option Token)

/-- Errors a traversal can raise.  `ffcError` models `error`/`ffc_assert`
failures (carrying the message), `keyError` a raw Python dict lookup failure,
`indexError` a raw list indexing failure, and `noneToFormat` marks the spots
where the source would forward Python `None` into an external format
function, whose behaviour is outside this model. -/
inductive PyError where
  | ffcError (msg : String)
  | keyError
  | indexError
  | noneToFormat
deriving DecidableEq, Repr

/-- Restriction tag for interior-facet integrals (`self.restriction`). -/
inductive Restriction where
  | no
  | plus
  | minus
deriving DecidableEq, Repr

/-- The element mapping kind (`ffc.finiteelement` constants); `OTHER` models
the open-world value the source's final `else` branch guards against. -/
inductive Transformation where
  | AFFINE
  | COVARIANT_PIOLA
  | CONTRAVARIANT_PIOLA
  | OTHER
deriving DecidableEq, Repr

/-- The format table (`self.format`), an external pure collaborator: named
operator-emission functions turning operand tokens into an output token.
`division` is the division operator string (the source concatenates it). -/
structure Format where
  grouping : Token → Token
  add : List Token → Token
  multiply : List Token → Token
  floating_point : ℚ → Token
  division : String
  power : Token → Int → Token
  std_power : Token → Token → Token
  absolute_value : Token → Token
  transform : String → Nat → Nat → Restriction → Token
  determinant : Restriction → Token
  inverse : Token → Token
  normal_component : Restriction → Nat → Token

/-- Association-list lookup (Python `d[k]` / `k in d`). -/
def findEntry {α : Type} : List (Key × α) → Key → Option α
  | [], _ => none
  | (k1, v) :: rest, k => if k1 = k then some v else findEntry rest k

/-- Python `k in d`. -/
def hasKey {α : Type} (m : List (Key × α)) (k : Key) : Bool :=
  (findEntry m k).isSome

/-- Python `d[k] = v`: replace the entry if the key exists, else append. -/
def setKey {α : Type} : List (Key × α) → Key → α → List (Key × α)
  | [], k, v => [(k, v)]
  | (k1, v1) :: rest, k, v =>
    if k1 = k then (k, v) :: rest else (k1, v1) :: setKey rest k v

/-- Python `if k in d: d[k].append(v) else: d[k] = [v]`. -/
def appendEntry {α : Type} : List (Key × List α) → Key → α → List (Key × List α)
  | [], k, v => [(k, [v])]
  | (k1, vs) :: rest, k, v =>
    if k1 = k then (k1, vs ++ [v]) :: rest else (k1, vs) :: appendEntry rest k v

/-- Python `if not k in d: d[k] = []`. -/
def ensureKey {α : Type} (m : List (Key × List α)) (k : Key) : List (Key × List α) :=
  if hasKey m k then m else m ++ [(k, [])]

/-! ## Sum node (`QuadratureTransformer.sum`, lines 55-114) -/

/-- The first loop of `sum`: collect, per key, the list of contributions of
all operand code maps in order (`code[key].append(val)`). -/
def sumCollect (operands : List CodeMap) : List (Key × List (Option Token)) :=
  operands.foldl (fun acc op => op.foldl (fun a kv => appendEntry a kv.1 kv.2) acc) []

/-- The `duplications` dict of `sum`: count occurrences of each token,
keyed in first-occurrence order. -/
def bumpCount : List (Token × Nat) → Token → List (Token × Nat)
  | [], t => [(t, 1)]
  | (t1, n) :: rest, t =>
    if t1 = t then (t1, n + 1) :: rest else (t1, n) :: bumpCount rest t

/-- Count duplicated tokens in a flat contribution list. -/
def duplications (value : List Token) : List (Token × Nat) :=
  value.foldl bumpCount []

/-- The per-key body of the second loop of `sum`, including the
`ffc_assert(expressions, ...)` defensive check. -/
def sumEntry (fmt : Format) (val : List (Option Token)) : Except PyError (Option Token) :=
  let value := val.filterMap id
  if 1 < value.length then
    let expressions := (duplications value).map
      (fun p => if 1 < p.2 then fmt.multiply [fmt.floating_point (p.2 : ℚ), p.1] else p.1)
    if expressions = [] then .error (.ffcError "Where did the expressions go?")
    else if 1 < expressions.length then .ok (some (fmt.grouping (fmt.add expressions)))
    else .ok (some (expressions.headD ""))
  else
    match value with
    | [] => .ok none
    | v :: _ => .ok (some v)

/-- The value `sumEntry` produces when the defensive assert cannot fire. -/
def sumValue (fmt : Format) (val : List (Option Token)) : Option Token :=
  let value := val.filterMap id
  if 1 < value.length then
    let expressions := (duplications value).map
      (fun p => if 1 < p.2 then fmt.multiply [fmt.floating_point (p.2 : ℚ), p.1] else p.1)
    if 1 < expressions.length then some (fmt.grouping (fmt.add expressions))
    else some (expressions.headD "")
  else
    match value with
    | [] => none
    | v :: _ => some v

/-- Apply `sumEntry` to every collected entry. -/
def sumEntries (fmt : Format) : List (Key × List (Option Token)) → Except PyError CodeMap
  | [] => .ok []
  | (k, vs) :: rest =>
    match sumEntry fmt vs, sumEntries fmt rest with
    | .ok v, .ok r => .ok ((k, v) :: r)
    | .error e, _ => .error e
    | _, .error e => .error e

/-- `QuadratureTransformer.sum`. -/
def QT.sum (fmt : Format) (operands : List CodeMap) : Except PyError CodeMap :=
  sumEntries fmt (sumCollect operands)

/-! ## Product node (`QuadratureTransformer.product`, lines 116-192) -/

/-- The operand partition of `product`: maps needing permutation (rank > 0)
versus the `()`-values of scalar maps; empty maps are dropped. -/
def partitionOps : List CodeMap → List CodeMap × List (Option Token)
  | [] => ([], [])
  | op :: rest =>
    let pr := partitionOps rest
    match op with
    | [] => pr
    | (k, v) :: ops =>
      if ops ≠ [] ∨ k ≠ [] then (((k, v) :: ops) :: pr.1, pr.2)
      else (pr.1, v :: pr.2)

/-- Modelled from the spec: `create_permutations` (from
`quadraturegenerator_utils`, whose source is not part of this repository
snapshot).  Per spec section 4.3 it maps a list of tensor-valued code maps to
one entry per element of the Cartesian product of their key sets, keyed by
the concatenated keys, with the aligned token lists concatenated; empty input
gives an empty result. -/
def create_permutations : List CodeMap → List (Key × List (Option Token))
  | [] => []
  | [m] => m.map (fun kv => (kv.1, [kv.2]))
  | m :: r :: rs =>
    let restP := create_permutations (r :: rs)
    m.foldr (fun kv acc => restP.map (fun kr => (kv.1 ++ kr.1, kv.2 :: kr.2)) ++ acc) []

/-- Outcome of the multiplicand fold inside `product`:
either a symbolic zero was hit (break), an empty non-identity token was hit
(`error("should not happen")`), or the kept tokens in order. -/
inductive FoldResult where
  | zero
  | malformed
  | value (v : List Token)
deriving DecidableEq, Repr

/-- The multiplicand fold of `product`: skip `"1"`, break to zero on `None`,
error on an empty token, keep the rest. -/
def foldVals : List (Option Token) → List Token → FoldResult
  | [], acc => .value acc
  | none :: _, _ => .zero
  | some v :: rest, acc =>
    if v = "" then .malformed
    else if v = "1" then foldVals rest acc
    else foldVals rest (acc ++ [v])

/-- Python `if not value: value = ['1']`. -/
def padOne (v : List Token) : List Token :=
  if v = [] then ["1"] else v

/-- Python `l = list(key); l.sort()`. -/
def pySorted (l : List Nat) : List Nat :=
  List.insertionSort (fun a b => a ≤ b) l

/-- The permutation branch of `product`: process each permutation entry,
sort its key, fold the multiplicands together with the scalar tokens, and
assign into the accumulated code dict (overwriting an existing entry). -/
def productPermLoop (fmt : Format) (not_permute : List (Option Token)) :
    List (Key × List (Option Token)) → CodeMap → Except PyError CodeMap
  | [], code => .ok code
  | (key, val) :: rest, code =>
    let l := pySorted key
    match foldVals (val ++ not_permute) [] with
    | .zero =>
      if hasKey code l then .error (.ffcError "This key should not be in the code.")
      else productPermLoop fmt not_permute rest (setKey code l none)
    | .malformed => .error (.ffcError "should not happen")
    | .value v => productPermLoop fmt not_permute rest (setKey code l (some (fmt.multiply (padOne v))))

/-- `QuadratureTransformer.product`. -/
def QT.product (fmt : Format) (operands : List CodeMap) : Except PyError CodeMap :=
  let parts := partitionOps operands
  let permutations := create_permutations parts.1
  if permutations ≠ [] then
    productPermLoop fmt parts.2 permutations []
  else
    match foldVals parts.2 [] with
    | .zero => .ok [([], none)]
    | .malformed => .error (.ffcError "should not happen")
    | .value value => .ok [([], some (fmt.multiply (padOne value)))]

/-! ## Division node (`QuadratureTransformer.division`, lines 194-227) -/

/-- `QuadratureTransformer.division`. -/
def QT.division (fmt : Format) (operands : List CodeMap) : Except PyError CodeMap :=
  match operands with
  | [numerator_code, denominator_code] =>
    if hasKey denominator_code [] ∧ denominator_code.length = 1 then
      match findEntry denominator_code [] with
      | none => .error .keyError
      | some none => .error (.ffcError "Division by zero!")
      | some (some denominator) =>
        .ok (numerator_code.map (fun kv =>
          (kv.1, match kv.2 with
            | none => none
            | some v =>
              if denominator = "1" then some v
              else some (v ++ fmt.division ++ fmt.grouping denominator))))
    else .error (.ffcError "Only support function type denominator")
  | _ => .error (.ffcError "Expected exactly two operands (numerator and denominator)")

/-! ## Power node (`QuadratureTransformer.power`, lines 229-253) -/

/-- The structural kinds of a power node's exponent inspected by the source:
an `IntValue`, a `FloatValue`, a `Coefficient` (carrying the code map its
recursive visit produced), or anything else. -/
inductive Expo where
  | intValue (n : Int)
  | floatValue (x : ℚ)
  | coefficient (visited : CodeMap)
  | other
deriving Repr

/-- `QuadratureTransformer.power`, taking the already-visited base code map
and the structurally-inspected exponent. -/
def QT.power (fmt : Format) (base_code : CodeMap) (expo : Expo) : Except PyError CodeMap :=
  if hasKey base_code [] ∧ base_code.length = 1 then
    match findEntry base_code [] with
    | none => .error .keyError
    | some val? =>
      match expo with
      | .intValue n =>
        match val? with
        | some val => .ok [([], some (fmt.power val n))]
        | none => .error .noneToFormat
      | .floatValue x =>
        match val? with
        | some val => .ok [([], some (fmt.std_power val (fmt.floating_point x)))]
        | none => .error .noneToFormat
      | .coefficient m =>
        match findEntry m [] with
        | none => .error .keyError
        | some e? =>
          match val?, e? with
          | some val, some e => .ok [([], some (fmt.std_power val e))]
          | _, _ => .error .noneToFormat
      | .other => .error (.ffcError "power does not support this exponent")
  else .error (.ffcError "Only support function type base")

/-! ## Facet normal leaf (`QuadratureTransformer.facet_normal`, lines 271-285) -/

/-- `QuadratureTransformer.facet_normal`: produces the normal-component
token for the sole active component and records it in `self.trans_set`. -/
def QT.facet_normal (fmt : Format) (restriction : Restriction)
    (components : List Nat) (operands : List CodeMap) (trans_set : Finset Token) :
    Except PyError (CodeMap × Finset Token) :=
  if operands ≠ [] then .error (.ffcError "Did not expect any operands for FacetNormal")
  else if components.length ≠ 1 then .error (.ffcError "FacetNormal expects 1 component index")
  else
    let normal_component := fmt.normal_component restriction (components.headD 0)
    .ok ([([], some normal_component)], insert normal_component trans_set)

/-! ## Geometric transform applier (`__apply_transform`, lines 434-453) -/

/-- The loop of `__apply_transform`: for each derivative direction, build the
`JINV` transform factor keyed by the aligned multi-index entry, inserting each
factor into the used-transforms set.  Runs out of multi-index entries with an
`IndexError`, as Python `multi[i]` would. -/
def mkTransforms (fmt : Format) (restriction : Restriction) :
    List Nat → List Nat → Finset Token → Except PyError (List Token × Finset Token)
  | [], _, ts => .ok ([], ts)
  | _ :: _, [], _ => .error .indexError
  | direction :: ds, ref :: ms, ts =>
    let t := fmt.transform "JINV" ref direction restriction
    match mkTransforms fmt restriction ds ms (insert t ts) with
    | .error e => .error e
    | .ok (rest, ts1) => .ok (t :: rest, ts1)

/-- `QuadratureTransformer.__apply_transform`. -/
def applyTransform (fmt : Format) (restriction : Restriction) (function? : Option Token)
    (derivatives multi : List Nat) (trans_set : Finset Token) :
    Except PyError (Token × Finset Token) :=
  match mkTransforms fmt restriction derivatives multi trans_set with
  | .error e => .error e
  | .ok (transforms, ts1) =>
    let prods := match function? with
      | some f => if f = "" then transforms else transforms ++ [f]
      | none => transforms
    .ok (fmt.multiply prods, ts1)

/-! ## Basis construction (`create_argument`, lines 287-365) -/

/-- The fixed collaborators of one `create_argument` call: the format table,
the geometric dimension, the ambient restriction and the external
`_create_mapping_basis` lookup (with the ufl argument and element fixed),
returning the mapping key and the basis token or `None`. -/
structure ArgEnv where
  fmt : Format
  geo_dim : Nat
  restriction : Restriction
  cmb : Nat → List Nat → Key × Option Token

/-- `deriv = [multi.count(i) for i in range(self.geo_dim)]`, emptied when all
counts are zero. -/
def derivVec (geo_dim : Nat) (multi : List Nat) : List Nat :=
  let deriv := (List.range geo_dim).map (fun i => multi.count i)
  if deriv.any (fun n => n != 0) then deriv else []

/-- The affine branch of `create_argument`: one lookup per multi-index at the
requested component, transformed and accumulated per mapping key. -/
def argAffine (env : ArgEnv) (derivatives : List Nat) (component : Nat) :
    List (List Nat) → List (Key × List Token) → Finset Token →
    Except PyError (List (Key × List Token) × Finset Token)
  | [], code, ts => .ok (code, ts)
  | multi :: rest, code, ts =>
    let deriv := derivVec env.geo_dim multi
    let mb := env.cmb component deriv
    match mb.2 with
    | none => argAffine env derivatives component rest (ensureKey code mb.1) ts
    | some basis =>
      match applyTransform env.fmt env.restriction (some basis) derivatives multi ts with
      | .error e => .error e
      | .ok (t, ts1) => argAffine env derivatives component rest (appendEntry code mb.1 t) ts1

/-- The inner geometric-dimension loop of the Piola branch of
`create_argument`: premultiply the basis by the mapping-specific factor,
recording each factor in the used-transforms set. -/
def argPiolaInner (env : ArgEnv) (derivatives : List Nat)
    (local_comp local_offset : Nat) (transformation : Transformation)
    (deriv : List Nat) (multi : List Nat) :
    List Nat → List (Key × List Token) → Finset Token →
    Except PyError (List (Key × List Token) × Finset Token)
  | [], code, ts => .ok (code, ts)
  | c :: cs, code, ts =>
    let mb := env.cmb (c + local_offset) deriv
    match mb.2 with
    | none =>
      argPiolaInner env derivatives local_comp local_offset transformation deriv multi cs
        (ensureKey code mb.1) ts
    | some basis0 =>
      match transformation with
      | .COVARIANT_PIOLA =>
        let dxdX := env.fmt.transform "JINV" c local_comp env.restriction
        let ts1 := insert dxdX ts
        let basis := env.fmt.multiply [dxdX, basis0]
        match applyTransform env.fmt env.restriction (some basis) derivatives multi ts1 with
        | .error e => .error e
        | .ok (t, ts2) =>
          argPiolaInner env derivatives local_comp local_offset transformation deriv multi cs
            (appendEntry code mb.1 t) ts2
      | .CONTRAVARIANT_PIOLA =>
        let ts1 := insert (env.fmt.determinant env.restriction) ts
        let detJ := env.fmt.inverse (env.fmt.determinant env.restriction)
        let dXdx := env.fmt.transform "J" c local_comp env.restriction
        let ts2 := insert dXdx ts1
        let basis := env.fmt.multiply [detJ, dXdx, basis0]
        match applyTransform env.fmt env.restriction (some basis) derivatives multi ts2 with
        | .error e => .error e
        | .ok (t, ts3) =>
          argPiolaInner env derivatives local_comp local_offset transformation deriv multi cs
            (appendEntry code mb.1 t) ts3
      | _ => .error (.ffcError "Transformation is not supported")

/-- The outer multi-index loop of the Piola branch of `create_argument`. -/
def argPiolaOuter (env : ArgEnv) (derivatives : List Nat)
    (local_comp local_offset : Nat) (transformation : Transformation) :
    List (List Nat) → List (Key × List Token) → Finset Token →
    Except PyError (List (Key × List Token) × Finset Token)
  | [], code, ts => .ok (code, ts)
  | multi :: rest, code, ts =>
    let deriv := derivVec env.geo_dim multi
    match argPiolaInner env derivatives local_comp local_offset transformation deriv multi
        (List.range env.geo_dim) code ts with
    | .error e => .error e
    | .ok (code1, ts1) =>
      argPiolaOuter env derivatives local_comp local_offset transformation rest code1 ts1

/-- The final merge loop of `create_argument` (lines 355-364): more than one
accumulated token is summed and grouped, a single one kept, an empty list
becomes symbolic zero. -/
def mergeCode (fmt : Format) (code : List (Key × List Token)) : CodeMap :=
  code.map (fun kv =>
    (kv.1,
      if 1 < kv.2.length then some (fmt.grouping (fmt.add kv.2))
      else match kv.2 with
        | [] => none
        | v :: _ => some v))

/-- `QuadratureTransformer.create_argument`. -/
def QT.create_argument (env : ArgEnv) (derivatives : List Nat)
    (component local_comp local_offset : Nat) (transformation : Transformation)
    (multiindices : List (List Nat)) (trans_set : Finset Token) :
    Except PyError (CodeMap × Finset Token) :=
  match (if transformation = .AFFINE then
          argAffine env derivatives component multiindices [] trans_set
         else
          argPiolaOuter env derivatives local_comp local_offset transformation
            multiindices [] trans_set) with
  | .error e => .error e
  | .ok (code, ts1) => .ok (mergeCode env.fmt code, ts1)

/-! ## Wrapper encapsulation (`ffc/wrappers.py`, `_encapsule_element`) -/

/-- The class-name table handed to `_encapsule_element` (the source indexes
the keys "elements", "dofmaps" and "coordinate_mapppings", spelled as in the
source). -/
structure DolfinClassnames where
  elements : List String
  dofmaps : List String
  coordinate_mapppings : List String
deriving DecidableEq, Repr

/-- The `UFCElementNames(*args)` capsule built by `_encapsule_element`. -/
structure UFCElementNames where
  name : String
  element_classnames : List String
  dofmap_classnames : List String
  coordinate_map_classnames : List String
deriving DecidableEq, Repr

/-- Python list indexing, including negative indices from the right. -/
def pyIndex (l : List String) (i : Int) : Except PyError String :=
  let j := if i < 0 then i + l.length else i
  if 0 ≤ j ∧ j < l.length then .ok (l.getD j.toNat "") else .error .indexError

/-- `_encapsule_element`: `element_number = len(elements) - 1` and index all
three class-name lists with it. -/
def encapsule_element {α : Type} (classnames : DolfinClassnames) (elements : List α) :
    Except PyError UFCElementNames :=
  let element_number : Int := (elements.length : Int) - 1
  match pyIndex classnames.elements element_number,
        pyIndex classnames.dofmaps element_number,
        pyIndex classnames.coordinate_mapppings element_number with
  | .ok e, .ok d, .ok c => .ok ⟨"0", [e], [d], [c]⟩
  | .error err, _, _ => .error err
  | _, .error err, _ => .error err
  | _, _, .error err => .error err

/-! ## A concrete format table, for evaluating witnesses. -/

/-- Render a restriction suffix. -/
def restStr : Restriction → String
  | .no => ""
  | .plus => "p"
  | .minus => "m"

/-- A simple concrete instance of the external format table. -/
def fmtS : Format where
  grouping := fun s => "(" ++ s ++ ")"
  add := fun l => String.intercalate " + " l
  multiply := fun l => String.intercalate "*" l
  floating_point := fun q => "f[" ++ toString q.num ++ "/" ++ toString q.den ++ "]"
  division := "/"
  power := fun b n => "pow(" ++ b ++ ", " ++ toString n ++ ")"
  std_power := fun b e => "std::pow(" ++ b ++ ", " ++ e ++ ")"
  absolute_value := fun s => "std::abs(" ++ s ++ ")"
  transform := fun name r d rest => name ++ "_" ++ toString r ++ "_" ++ toString d ++ restStr rest
  determinant := fun rest => "detJ" ++ restStr rest
  inverse := fun s => "1/(" ++ s ++ ")"
  normal_component := fun rest i => "n" ++ restStr rest ++ toString i

/-! ## Lemmas about association lists -/

theorem findEntry_append {α : Type} (a b : List (Key × α)) (k : Key) :
    findEntry (a ++ b) k =
      match findEntry a k with
      | some v => some v
      | none => findEntry b k := by
  induction a with
  | nil => simp [findEntry]
  | cons hd tl ih =>
    obtain ⟨k1, v⟩ := hd
    by_cases h : k1 = k <;> simp [findEntry, h, ih]

theorem findEntry_map {α β : Type} (f : α → β) (l : List (Key × α)) (k : Key) :
    findEntry (l.map (fun kv => (kv.1, f kv.2))) k = (findEntry l k).map f := by
  induction l with
  | nil => simp [findEntry]
  | cons hd tl ih =>
    obtain ⟨k1, v⟩ := hd
    by_cases h : k1 = k <;> simp [findEntry, h, ih]

theorem appendEntry_notin {α : Type} (acc : List (Key × List α)) (k : Key) (v : α)
    (h : findEntry acc k = none) : appendEntry acc k v = acc ++ [(k, [v])] := by
  induction acc with
  | nil => simp [appendEntry]
  | cons hd tl ih =>
    obtain ⟨k1, vs⟩ := hd
    by_cases hk : k1 = k
    · simp [findEntry, hk] at h
    · simp only [findEntry, if_neg hk] at h
      simp [appendEntry, hk, ih h]

/-! ## Lemmas about the sum node -/

theorem bumpCount_ne_nil (d : List (Token × Nat)) (t : Token) : bumpCount d t ≠ [] := by
  cases d with
  | nil => simp [bumpCount]
  | cons hd tl =>
    obtain ⟨t1, n⟩ := hd
    by_cases h : t1 = t <;> simp [bumpCount, h]

theorem duplications_ne_nil (value : List Token) (h : value ≠ []) :
    duplications value ≠ [] := by
  have key : ∀ (l : List Token) (d : List (Token × Nat)), d ≠ [] →
      l.foldl bumpCount d ≠ [] := by
    intro l
    induction l with
    | nil => intro d hd; simpa using hd
    | cons v vs ih =>
      intro d _
      exact ih (bumpCount d v) (bumpCount_ne_nil d v)
  cases value with
  | nil => exact absurd rfl h
  | cons v vs =>
    show (v :: vs).foldl bumpCount [] ≠ []
    rw [List.foldl_cons]
    exact key vs (bumpCount [] v) (bumpCount_ne_nil [] v)

theorem sumEntry_eq (fmt : Format) (vs : List (Option Token)) :
    sumEntry fmt vs = .ok (sumValue fmt vs) := by
  unfold sumEntry sumValue
  by_cases h : 1 < (vs.filterMap id).length
  · have hne : vs.filterMap id ≠ [] := by
      intro he
      rw [he] at h
      simp at h
    have hdup := duplications_ne_nil _ hne
    have hexp : (duplications (vs.filterMap id)).map
        (fun p => if 1 < p.2 then fmt.multiply [fmt.floating_point (p.2 : ℚ), p.1] else p.1)
        ≠ [] := by
      simpa using hdup
    simp only [if_pos h, if_neg hexp]
    split <;> rfl
  · simp only [if_neg h]
    rcases List.filterMap id vs with _ | ⟨v, tail⟩ <;> rfl

theorem sumValue_many (fmt : Format) (vs : List (Option Token))
    (h : 1 < (vs.filterMap id).length) :
    sumValue fmt vs = some (
      let expressions := (duplications (vs.filterMap id)).map
        (fun p => if 1 < p.2 then fmt.multiply [fmt.floating_point (p.2 : ℚ), p.1] else p.1)
      if 1 < expressions.length then fmt.grouping (fmt.add expressions)
      else expressions.headD "") := by
  unfold sumValue
  simp only [if_pos h]
  split <;> rfl

theorem sumValue_one (fmt : Format) (vs : List (Option Token)) (t : Token)
    (h : vs.filterMap id = [t]) : sumValue fmt vs = some t := by
  unfold sumValue
  simp [h]

theorem sumValue_zero (fmt : Format) (vs : List (Option Token))
    (h : vs.filterMap id = []) : sumValue fmt vs = none := by
  unfold sumValue
  simp [h]

theorem sumEntries_eq (fmt : Format) (l : List (Key × List (Option Token))) :
    sumEntries fmt l = .ok (l.map (fun kv => (kv.1, sumValue fmt kv.2))) := by
  induction l with
  | nil => simp [sumEntries]
  | cons hd tl ih =>
    obtain ⟨k, vs⟩ := hd
    simp [sumEntries, sumEntry_eq, ih]

theorem sumValue_single (fmt : Format) (v : Option Token) : sumValue fmt [v] = v := by
  cases v <;> simp [sumValue]

theorem sumCollect_single (m : CodeMap) (hm : (m.map Prod.fst).Nodup) :
    sumCollect [m] = m.map (fun kv => (kv.1, [kv.2])) := by
  have key : ∀ (l : CodeMap) (acc : List (Key × List (Option Token))),
      (∀ kv ∈ l, findEntry acc kv.1 = none) → (l.map Prod.fst).Nodup →
      l.foldl (fun a kv => appendEntry a kv.1 kv.2) acc
        = acc ++ l.map (fun kv => (kv.1, [kv.2])) := by
    intro l
    induction l with
    | nil => intro acc _ _; simp
    | cons kv rest ih =>
      intro acc hfresh hnodup
      rw [List.foldl_cons, appendEntry_notin acc kv.1 kv.2 (hfresh kv (by simp))]
      have hnodup1 : (rest.map Prod.fst).Nodup := by
        simpa using hnodup.of_cons
      have hnotmem : kv.1 ∉ rest.map Prod.fst := by
        have := hnodup
        simp only [List.map_cons, List.nodup_cons] at this
        exact this.1
      have hfresh1 : ∀ kv1 ∈ rest, findEntry (acc ++ [(kv.1, [kv.2])]) kv1.1 = none := by
        intro kv1 hkv1
        rw [findEntry_append, hfresh kv1 (by simp [hkv1])]
        have hne : kv.1 ≠ kv1.1 := by
          intro he
          exact hnotmem (he ▸ List.mem_map_of_mem Prod.fst hkv1)
        simp [findEntry, hne]
      rw [ih (acc ++ [(kv.1, [kv.2])]) hfresh1 hnodup1]
      simp
  show [m].foldl _ [] = _
  rw [List.foldl_cons, List.foldl_nil]
  exact key m [] (by intro kv _; simp [findEntry]) hm

/-- Claim C1: for a sum node, every component key with at least two non-zero
contributing tokens across the operand code maps gets the duplicate-reduced
result: syntactically identical tokens are counted, a group of n > 1
occurrences is replaced by multiply(float_literal(n), token), singletons stay
unchanged; more than one resulting expression is joined with add and wrapped
with group, a sole expression is used directly. -/
theorem sum_duplicate_reduction (fmt : Format) (ops : List CodeMap) (k : Key)
    (vs : List (Option Token)) (h : findEntry (sumCollect ops) k = some vs)
    (h2 : 2 ≤ (vs.filterMap id).length) :
    ∃ res, QT.sum fmt ops = .ok res ∧
      findEntry res k = some (some (
        let expressions := (duplications (vs.filterMap id)).map
          (fun p => if 1 < p.2 then fmt.multiply [fmt.floating_point (p.2 : ℚ), p.1] else p.1)
        if 1 < expressions.length then fmt.grouping (fmt.add expressions)
        else expressions.headD "")) := by
  have hsum : QT.sum fmt ops
      = .ok ((sumCollect ops).map (fun kv => (kv.1, sumValue fmt kv.2))) :=
    sumEntries_eq fmt (sumCollect ops)
  refine ⟨(sumCollect ops).map (fun kv => (kv.1, sumValue fmt kv.2)), hsum, ?_⟩
  rw [findEntry_map, h]
  have hlt : 1 < (vs.filterMap id).length := h2
  simp only [Option.map_some']
  rw [sumValue_many fmt vs hlt]

/-- Claim C5: for a sum node and any component key, a single non-zero
contributing token is returned unchanged, and a key whose contributions are
all symbolic zero yields the symbolic-zero sentinel (never an emitted "0"
token); consequently summing a single code map returns it unchanged. -/
theorem sum_single_token_and_zero (fmt : Format) :
    (∀ (ops : List CodeMap) (k : Key) (vs : List (Option Token)) (t : Token),
        findEntry (sumCollect ops) k = some vs → vs.filterMap id = [t] →
        ∃ res, QT.sum fmt ops = .ok res ∧ findEntry res k = some (some t)) ∧
    (∀ (ops : List CodeMap) (k : Key) (vs : List (Option Token)),
        findEntry (sumCollect ops) k = some vs → vs.filterMap id = [] →
        ∃ res, QT.sum fmt ops = .ok res ∧ findEntry res k = some none) ∧
    (∀ m : CodeMap, (m.map Prod.fst).Nodup → QT.sum fmt [m] = .ok m) := by
  refine ⟨?_, ?_, ?_⟩
  · intro ops k vs t h hone
    have hsum : QT.sum fmt ops
        = .ok ((sumCollect ops).map (fun kv => (kv.1, sumValue fmt kv.2))) :=
      sumEntries_eq fmt (sumCollect ops)
    refine ⟨(sumCollect ops).map (fun kv => (kv.1, sumValue fmt kv.2)), hsum, ?_⟩
    rw [findEntry_map, h]
    simp only [Option.map_some']
    rw [sumValue_one fmt vs t hone]
  · intro ops k vs h hzero
    have hsum : QT.sum fmt ops
        = .ok ((sumCollect ops).map (fun kv => (kv.1, sumValue fmt kv.2))) :=
      sumEntries_eq fmt (sumCollect ops)
    refine ⟨(sumCollect ops).map (fun kv => (kv.1, sumValue fmt kv.2)), hsum, ?_⟩
    rw [findEntry_map, h]
    simp only [Option.map_some']
    rw [sumValue_zero fmt vs hzero]
  · intro m hm
    show sumEntries fmt (sumCollect [m]) = .ok m
    rw [sumCollect_single m hm, sumEntries_eq]
    have : (m.map (fun kv => (kv.1, [kv.2]))).map
        (fun kv => (kv.1, sumValue fmt kv.2)) = m := by
      rw [List.map_map]
      have : ((fun kv => (kv.1, sumValue fmt kv.2)) ∘ fun kv : Key × Option Token =>
          (kv.1, [kv.2])) = fun kv : Key × Option Token => (kv.1, kv.2) := by
        funext kv
        simp [sumValue_single]
      rw [this]
      simp
    rw [this]

/-! ## Lemmas about the product node -/

theorem mem_setKey {α : Type} (m : List (Key × α)) (k : Key) (v : α) :
    ∀ kv ∈ setKey m k v, kv = (k, v) ∨ kv ∈ m := by
  induction m with
  | nil =>
    intro kv h
    simp only [setKey, List.mem_singleton] at h
    exact Or.inl h
  | cons hd tl ih =>
    intro kv h
    obtain ⟨k1, v1⟩ := hd
    by_cases hk : k1 = k
    · simp only [setKey, if_pos hk, List.mem_cons] at h
      rcases h with h | h
      · exact Or.inl h
      · exact Or.inr (List.mem_cons_of_mem _ h)
    · simp only [setKey, if_neg hk, List.mem_cons] at h
      rcases h with h | h
      · exact Or.inr (h ▸ List.mem_cons_self _ _)
      · rcases ih kv h with h1 | h1
        · exact Or.inl h1
        · exact Or.inr (List.mem_cons_of_mem _ h1)

theorem pySorted_sorted (l : List Nat) :
    List.Sorted (fun a b : Nat => a ≤ b) (pySorted l) :=
  List.sorted_insertionSort _ l

theorem foldVals_clean (vals : List (Option Token)) (acc : List Token)
    (h : ∀ v ∈ vals, ∃ s, v = some s ∧ s ≠ "") :
    foldVals vals acc
      = .value (acc ++ (vals.filterMap id).filter (fun s => decide (s ≠ "1"))) := by
  induction vals generalizing acc with
  | nil => simp [foldVals]
  | cons v rest ih =>
    obtain ⟨s, hv, hs⟩ := h v (List.mem_cons_self v rest)
    subst hv
    have hrest : ∀ v ∈ rest, ∃ s, v = some s ∧ s ≠ "" :=
      fun v hv => h v (List.mem_cons_of_mem _ hv)
    by_cases h1 : s = "1"
    · subst h1
      simp [foldVals, hs, ih acc hrest]
    · simp [foldVals, hs, h1, ih (acc ++ [s]) hrest]

theorem foldVals_zero_of_prefix (pre rest : List (Option Token)) (acc : List Token)
    (h : ∀ v ∈ pre, ∃ s, v = some s ∧ s ≠ "") :
    foldVals (pre ++ none :: rest) acc = .zero := by
  induction pre generalizing acc with
  | nil => simp [foldVals]
  | cons v pr ih =>
    obtain ⟨s, hv, hs⟩ := h v (List.mem_cons_self v pr)
    subst hv
    have hpr : ∀ v ∈ pr, ∃ s, v = some s ∧ s ≠ "" :=
      fun v hv => h v (List.mem_cons_of_mem _ hv)
    by_cases h1 : s = "1" <;> simp [foldVals, hs, h1, ih _ hpr]

theorem foldVals_malformed_of_prefix (pre rest : List (Option Token)) (acc : List Token)
    (h : ∀ v ∈ pre, ∃ s, v = some s ∧ s ≠ "") :
    foldVals (pre ++ some "" :: rest) acc = .malformed := by
  induction pre generalizing acc with
  | nil => simp [foldVals]
  | cons v pr ih =>
    obtain ⟨s, hv, hs⟩ := h v (List.mem_cons_self v pr)
    subst hv
    have hpr : ∀ v ∈ pr, ∃ s, v = some s ∧ s ≠ "" :=
      fun v hv => h v (List.mem_cons_of_mem _ hv)
    by_cases h1 : s = "1" <;> simp [foldVals, hs, h1, ih _ hpr]

theorem partitionOps_scalars (np : List (Option Token)) :
    partitionOps (np.map (fun v => [([], v)])) = ([], np) := by
  induction np with
  | nil => rfl
  | cons v rest ih => simp [partitionOps, ih]

theorem productPermLoop_keys_sorted (fmt : Format) (np : List (Option Token)) :
    ∀ (perms : List (Key × List (Option Token))) (code res : CodeMap),
      (∀ kv ∈ code, List.Sorted (fun a b : Nat => a ≤ b) kv.1) →
      productPermLoop fmt np perms code = .ok res →
      ∀ kv ∈ res, List.Sorted (fun a b : Nat => a ≤ b) kv.1 := by
  intro perms
  induction perms with
  | nil =>
    intro code res hcode h
    rw [productPermLoop] at h
    cases h
    exact hcode
  | cons p rest ih =>
    intro code res hcode h
    obtain ⟨key, val⟩ := p
    rw [productPermLoop] at h
    cases hf : foldVals (val ++ np) [] <;> rw [hf] at h
    · by_cases hk : hasKey code (pySorted key) = true
      · rw [if_pos hk] at h
        cases h
      · rw [if_neg hk] at h
        refine ih _ res ?_ h
        intro kv hkv
        rcases mem_setKey code (pySorted key) none kv hkv with h1 | h1
        · rw [h1]
          exact pySorted_sorted key
        · exact hcode kv h1
    · cases h
    · refine ih _ res ?_ h
      intro kv hkv
      rcases mem_setKey code (pySorted key) _ kv hkv with h1 | h1
      · rw [h1]
        exact pySorted_sorted key
      · exact hcode kv h1

/-- Claim C6 (confirmed): the multiplicand fold of the product node drops
identity tokens "1", short-circuits to symbolic zero as soon as a symbolic-zero
multiplicand is met, raises the malformed-operand error on an empty
non-identity token, and otherwise multiplies the remaining tokens, emitting
the identity literal when every token was dropped. -/
theorem product_fold_rules (fmt : Format) :
    (∀ vals acc, (∀ v ∈ vals, ∃ s, v = some s ∧ s ≠ "") →
        foldVals vals acc
          = .value (acc ++ (vals.filterMap id).filter (fun s => decide (s ≠ "1")))) ∧
    (∀ pre rest acc, (∀ v ∈ pre, ∃ s, v = some s ∧ s ≠ "") →
        foldVals (pre ++ none :: rest) acc = .zero) ∧
    (∀ pre rest acc, (∀ v ∈ pre, ∃ s, v = some s ∧ s ≠ "") →
        foldVals (pre ++ some "" :: rest) acc = .malformed) ∧
    (∀ k vals np wv, foldVals (vals ++ np) [] = .value wv →
        productPermLoop fmt np [(k, vals)] []
          = .ok [(pySorted k, some (fmt.multiply (padOne wv)))]) ∧
    (∀ k vals np, foldVals (vals ++ np) [] = .zero →
        productPermLoop fmt np [(k, vals)] [] = .ok [(pySorted k, none)]) ∧
    (∀ k vals np, foldVals (vals ++ np) [] = .malformed →
        productPermLoop fmt np [(k, vals)] []
          = .error (.ffcError "should not happen")) ∧
    (∀ np wv, foldVals np [] = .value wv →
        QT.product fmt (np.map (fun v => [([], v)]))
          = .ok [([], some (fmt.multiply (padOne wv)))]) ∧
    (fmt.multiply ["1"] = "1" → ∀ k vals np, foldVals (vals ++ np) [] = .value [] →
        productPermLoop fmt np [(k, vals)] [] = .ok [(pySorted k, some "1")]) := by
  refine ⟨foldVals_clean, foldVals_zero_of_prefix, foldVals_malformed_of_prefix,
    ?_, ?_, ?_, ?_, ?_⟩
  · intro k vals np wv hf
    simp [productPermLoop, hf, setKey]
  · intro k vals np hf
    simp [productPermLoop, hf, hasKey, findEntry, setKey]
  · intro k vals np hf
    simp [productPermLoop, hf]
  · intro np wv hf
    simp [QT.product, partitionOps_scalars, create_permutations, hf]
  · intro hone k vals np hf
    simp [productPermLoop, hf, setKey, padOne, hone]

/-- Claim C2 (amended): every output key of a product node is canonicalized
by sorting its component indices, so it is independent of operand order; but
when two distinct permutation keys canonicalize to the same sorted key, the
later entry overwrites the earlier one instead of merging: the resulting map
holds only the last-processed value. -/
theorem product_canonical_keys_overwrite (fmt : Format) :
    (∀ ops res, QT.product fmt ops = .ok res →
        ∀ kv ∈ res, List.Sorted (fun a b : Nat => a ≤ b) kv.1) ∧
    (∀ np k1 v1 k2 v2 w1 w2, pySorted k1 = pySorted k2 →
        foldVals (v1 ++ np) [] = .value w1 → foldVals (v2 ++ np) [] = .value w2 →
        productPermLoop fmt np [(k1, v1), (k2, v2)] []
          = .ok [(pySorted k2, some (fmt.multiply (padOne w2)))]) := by
  constructor
  · intro ops res h
    rw [QT.product] at h
    by_cases hp : create_permutations (partitionOps ops).1 ≠ []
    · rw [if_pos hp] at h
      exact productPermLoop_keys_sorted fmt (partitionOps ops).2 _ [] res
        (by intro kv hkv; cases hkv) h
    · rw [if_neg hp] at h
      cases hf : foldVals (partitionOps ops).2 [] <;> rw [hf] at h
      · cases h
        intro kv hkv
        simp only [List.mem_singleton] at hkv
        rw [hkv]
        exact List.sorted_nil
      · cases h
      · cases h
        intro kv hkv
        simp only [List.mem_singleton] at hkv
        rw [hkv]
        exact List.sorted_nil
  · intro np k1 v1 k2 v2 w1 w2 hk h1 h2
    simp [productPermLoop, h1, h2, hk, setKey]

/-- Claim C2 counterexample: with tensor operands `{(0): a, (1): b}` and
`{(0): c, (1): d}`, the permutation keys `(0,1)` (value list `[a, d]`) and
`(1,0)` (value list `[b, c]`) both canonicalize to the sorted key `(0,1)`;
the resulting map holds only the later product `b*c` for that key — the
earlier value `a*d` is silently discarded, so the two values do NOT merge. -/
theorem product_key_collision_cex :
    QT.product fmtS [[([0], some "a"), ([1], some "b")],
                     [([0], some "c"), ([1], some "d")]]
      = .ok [([0, 0], some "a*c"), ([0, 1], some "b*c"), ([1, 1], some "b*d")] ∧
    findEntry (create_permutations [[([0], some "a"), ([1], some "b")],
                                    [([0], some "c"), ([1], some "d")]]) [0, 1]
      = some [some "a", some "d"] := by
  constructor
  · rfl
  · rfl

/-! ## Division and power claims -/

/-- Claim C3 (confirmed): division fails unless given exactly two operands,
fails unless the denominator map is rank-0, fails with the division-by-zero
error when the denominator's scalar entry is symbolic zero, and otherwise
maps every numerator key: a symbolic-zero numerator stays symbolic zero, a
denominator equal to "1" returns the numerator token unchanged, and any other
denominator appends the division operator and the grouped denominator. -/
theorem division_rules (fmt : Format) :
    (∀ ops : List CodeMap, ops.length ≠ 2 →
        QT.division fmt ops
          = .error (.ffcError "Expected exactly two operands (numerator and denominator)")) ∧
    (∀ num den : CodeMap, ¬(hasKey den [] = true ∧ den.length = 1) →
        QT.division fmt [num, den]
          = .error (.ffcError "Only support function type denominator")) ∧
    (∀ num den : CodeMap, den.length = 1 → findEntry den [] = some none →
        QT.division fmt [num, den] = .error (.ffcError "Division by zero!")) ∧
    (∀ (num den : CodeMap) (d : Token), den.length = 1 →
        findEntry den [] = some (some d) →
        QT.division fmt [num, den]
          = .ok (num.map (fun kv =>
              (kv.1, match kv.2 with
                | none => none
                | some v =>
                  if d = "1" then some v
                  else some (v ++ fmt.division ++ fmt.grouping d))))) := by
  refine ⟨?_, ?_, ?_, ?_⟩
  · intro ops h
    match ops with
    | [] => rfl
    | [a] => rfl
    | [a, b] => exact absurd rfl h
    | a :: b :: c :: rest => rfl
  · intro num den h
    rw [QT.division, if_neg h]
  · intro num den hlen hz
    have hk : hasKey den [] = true := by
      rw [hasKey, hz]
      rfl
    rw [QT.division, if_pos ⟨hk, hlen⟩, hz]
  · intro num den d hlen hd
    have hk : hasKey den [] = true := by
      rw [hasKey, hd]
      rfl
    rw [QT.division, if_pos ⟨hk, hlen⟩, hd]

/-- Claim C4 (confirmed): a power node with a rank-0 base dispatches on the
exponent kind: an integer literal yields power(base, n), a float literal
yields std_power(base, float_literal(x)), a coefficient exponent yields
std_power(base, visited exponent token), any other kind raises the designated
unsupported-exponent error; a non-rank-0 base map fails. -/
theorem power_dispatch (fmt : Format) :
    (∀ (base : CodeMap) (expo : Expo), ¬(hasKey base [] = true ∧ base.length = 1) →
        QT.power fmt base expo = .error (.ffcError "Only support function type base")) ∧
    (∀ (b : Token) (n : Int),
        QT.power fmt [([], some b)] (.intValue n) = .ok [([], some (fmt.power b n))]) ∧
    (∀ (b : Token) (x : ℚ),
        QT.power fmt [([], some b)] (.floatValue x)
          = .ok [([], some (fmt.std_power b (fmt.floating_point x)))]) ∧
    (∀ (b e : Token) (m : CodeMap), findEntry m [] = some (some e) →
        QT.power fmt [([], some b)] (.coefficient m)
          = .ok [([], some (fmt.std_power b e))]) ∧
    (∀ b : Token,
        QT.power fmt [([], some b)] .other
          = .error (.ffcError "power does not support this exponent")) := by
  refine ⟨?_, ?_, ?_, ?_, ?_⟩
  · intro base expo h
    rw [QT.power, if_neg h]
  · intro b n
    rfl
  · intro b x
    rfl
  · intro b e m hm
    rw [QT.power]
    have hk : hasKey [(([] : Key), some b)] [] = true := rfl
    rw [if_pos ⟨hk, rfl⟩]
    simp [findEntry, hm]
  · intro b
    rfl

/-- Claim C10 (confirmed): for a coefficient exponent the source indexes the
visited exponent map at the empty key with no rank-0 check, so a visited map
lacking the empty key fails with a raw lookup error (KeyError) rather than
the designated unsupported-exponent error; that designated error is reached
only for exponents that are neither integer literal, float literal, nor
coefficient. -/
theorem power_coefficient_missing_key (fmt : Format) :
    (∀ (b : Token) (m : CodeMap), findEntry m [] = none →
        QT.power fmt [([], some b)] (.coefficient m) = .error .keyError) ∧
    (∀ (base : CodeMap) (expo : Expo),
        QT.power fmt base expo
          = .error (.ffcError "power does not support this exponent") →
        expo = .other) := by
  constructor
  · intro b m hm
    rw [QT.power]
    have hk : hasKey [(([] : Key), some b)] [] = true := rfl
    rw [if_pos ⟨hk, rfl⟩]
    simp [findEntry, hm]
  · intro base expo h
    cases expo with
    | other => rfl
    | intValue n =>
      exfalso
      simp only [QT.power] at h
      split at h
      · split at h
        · simp at h
        · split at h <;> simp at h
      · simp at h
    | floatValue x =>
      exfalso
      simp only [QT.power] at h
      split at h
      · split at h
        · simp at h
        · split at h <;> simp at h
      · simp at h
    | coefficient m =>
      exfalso
      simp only [QT.power] at h
      split at h
      · split at h
        · simp at h
        · split at h
          · simp at h
          · split at h <;> simp at h
      · simp at h

/-! ## Lemmas about the geometric transform applier -/

/-- The transform factors `__apply_transform` synthesizes: one per derivative
position, keyed by the aligned (multi-index entry, derivative direction,
restriction) triple. -/
def transformsOf (fmt : Format) (r : Restriction) (derivatives multi : List Nat) : List Token :=
  (multi.zip derivatives).map (fun p => fmt.transform "JINV" p.1 p.2 r)

theorem mem_foldl_insert (l : List Token) (ts : Finset Token) (x : Token) :
    x ∈ l.foldl (fun s t => insert t s) ts ↔ x ∈ ts ∨ x ∈ l := by
  induction l generalizing ts with
  | nil => simp
  | cons a rest ih =>
    simp only [List.foldl_cons, ih, Finset.mem_insert, List.mem_cons]
    tauto

theorem mkTransforms_spec (fmt : Format) (r : Restriction) :
    ∀ (ds ms : List Nat) (ts : Finset Token), ds.length = ms.length →
      mkTransforms fmt r ds ms ts
        = .ok (transformsOf fmt r ds ms,
               (transformsOf fmt r ds ms).foldl (fun s t => insert t s) ts) := by
  intro ds
  induction ds with
  | nil =>
    intro ms ts h
    have : ms = [] := by
      cases ms with
      | nil => rfl
      | cons m ms1 => simp at h
    subst this
    simp [mkTransforms, transformsOf]
  | cons d ds ih =>
    intro ms ts h
    cases ms with
    | nil => simp at h
    | cons m ms1 =>
      have hlen : ds.length = ms1.length := by
        simpa using h
      rw [mkTransforms, ih ms1 (insert (fmt.transform "JINV" m d r) ts) hlen]
      simp [transformsOf]

/-- Claim C7 (confirmed): with a derivative-direction list and a multi-index
of equal length, the transform applier synthesizes for each derivative
position exactly one inverse-Jacobian factor keyed by
(multi_index[i], derivative_direction[i], restriction), adds each factor to
the used-transforms set, and returns multiply over the factor list followed
by the base token, omitting the base token when it is absent. -/
theorem apply_transform_spec (fmt : Format) (r : Restriction)
    (derivatives multi : List Nat) (ts : Finset Token)
    (hlen : derivatives.length = multi.length) :
    ∃ ts2 : Finset Token,
      (∀ f : Token, f ≠ "" →
        applyTransform fmt r (some f) derivatives multi ts
          = .ok (fmt.multiply (transformsOf fmt r derivatives multi ++ [f]), ts2)) ∧
      applyTransform fmt r none derivatives multi ts
        = .ok (fmt.multiply (transformsOf fmt r derivatives multi), ts2) ∧
      ts ⊆ ts2 ∧
      (∀ t ∈ transformsOf fmt r derivatives multi, t ∈ ts2) := by
  refine ⟨(transformsOf fmt r derivatives multi).foldl (fun s t => insert t s) ts,
    ?_, ?_, ?_, ?_⟩
  · intro f hf
    rw [applyTransform, mkTransforms_spec fmt r derivatives multi ts hlen]
    simp [hf]
  · rw [applyTransform, mkTransforms_spec fmt r derivatives multi ts hlen]
  · intro x hx
    exact (mem_foldl_insert _ _ _).2 (Or.inl hx)
  · intro t ht
    exact (mem_foldl_insert _ _ _).2 (Or.inr ht)

/-! ## Monotonicity of the used-transforms set -/

theorem mkTransforms_mono (fmt : Format) (r : Restriction) :
    ∀ (ds ms : List Nat) (ts : Finset Token) (l : List Token) (ts1 : Finset Token),
      mkTransforms fmt r ds ms ts = .ok (l, ts1) → ts ⊆ ts1 := by
  intro ds
  induction ds with
  | nil =>
    intro ms ts l ts1 h
    rw [mkTransforms] at h
    cases h
    exact subset_rfl
  | cons d ds ih =>
    intro ms ts l ts1 h
    cases ms with
    | nil =>
      rw [mkTransforms] at h
      cases h
    | cons m ms1 =>
      rw [mkTransforms] at h
      cases hrec : mkTransforms fmt r ds ms1 (insert (fmt.transform "JINV" m d r) ts) with
      | error e =>
        rw [hrec] at h
        cases h
      | ok val =>
        obtain ⟨rest, ts2⟩ := val
        rw [hrec] at h
        cases h
        exact (Finset.subset_insert _ ts).trans (ih ms1 _ _ _ hrec)

theorem applyTransform_mono (fmt : Format) (r : Restriction) (f? : Option Token)
    (derivatives multi : List Nat) (ts : Finset Token) (t : Token) (ts1 : Finset Token)
    (h : applyTransform fmt r f? derivatives multi ts = .ok (t, ts1)) : ts ⊆ ts1 := by
  rw [applyTransform] at h
  cases hrec : mkTransforms fmt r derivatives multi ts with
  | error e =>
    rw [hrec] at h
    cases h
  | ok val =>
    obtain ⟨transforms, ts2⟩ := val
    rw [hrec] at h
    cases h
    exact mkTransforms_mono fmt r derivatives multi ts _ _ hrec

theorem argAffine_mono (env : ArgEnv) (derivatives : List Nat) (component : Nat) :
    ∀ (mis : List (List Nat)) (code : List (Key × List Token)) (ts : Finset Token)
      (res : List (Key × List Token)) (ts1 : Finset Token),
      argAffine env derivatives component mis code ts = .ok (res, ts1) → ts ⊆ ts1 := by
  intro mis
  induction mis with
  | nil =>
    intro code ts res ts1 h
    rw [argAffine] at h
    cases h
    exact subset_rfl
  | cons multi rest ih =>
    intro code ts res ts1 h
    simp only [argAffine] at h
    split at h
    · exact ih _ ts res ts1 h
    · split at h
      · cases h
      · rename_i basis t ts2 hat
        exact (applyTransform_mono _ _ _ _ _ _ _ _ hat).trans (ih _ _ res ts1 h)

theorem argPiolaInner_mono (env : ArgEnv) (derivatives : List Nat)
    (local_comp local_offset : Nat) (transformation : Transformation)
    (deriv multi : List Nat) :
    ∀ (cs : List Nat) (code : List (Key × List Token)) (ts : Finset Token)
      (res : List (Key × List Token)) (ts1 : Finset Token),
      argPiolaInner env derivatives local_comp local_offset transformation deriv multi
        cs code ts = .ok (res, ts1) → ts ⊆ ts1 := by
  intro cs
  induction cs with
  | nil =>
    intro code ts res ts1 h
    rw [argPiolaInner] at h
    cases h
    exact subset_rfl
  | cons c cs1 ih =>
    intro code ts res ts1 h
    simp only [argPiolaInner] at h
    split at h
    · exact ih _ ts res ts1 h
    · split at h
      · split at h
        · cases h
        · rename_i basis0 t ts2 hat
          exact (Finset.subset_insert
              (env.fmt.transform "JINV" c local_comp env.restriction) ts).trans
            ((applyTransform_mono _ _ _ _ _ _ _ _ hat).trans (ih _ _ res ts1 h))
      · split at h
        · cases h
        · rename_i basis0 t ts2 hat
          exact ((Finset.subset_insert (env.fmt.determinant env.restriction) ts).trans
              (Finset.subset_insert (env.fmt.transform "J" c local_comp env.restriction)
                (insert (env.fmt.determinant env.restriction) ts))).trans
            ((applyTransform_mono _ _ _ _ _ _ _ _ hat).trans (ih _ _ res ts1 h))
      · cases h

theorem argPiolaOuter_mono (env : ArgEnv) (derivatives : List Nat)
    (local_comp local_offset : Nat) (transformation : Transformation) :
    ∀ (mis : List (List Nat)) (code : List (Key × List Token)) (ts : Finset Token)
      (res : List (Key × List Token)) (ts1 : Finset Token),
      argPiolaOuter env derivatives local_comp local_offset transformation mis code ts
        = .ok (res, ts1) → ts ⊆ ts1 := by
  intro mis
  induction mis with
  | nil =>
    intro code ts res ts1 h
    rw [argPiolaOuter] at h
    cases h
    exact subset_rfl
  | cons multi rest ih =>
    intro code ts res ts1 h
    simp only [argPiolaOuter] at h
    split at h
    · cases h
    · rename_i code1 ts2 hin
      exact (argPiolaInner_mono env derivatives local_comp local_offset transformation
        _ multi _ code ts _ _ hin).trans (ih _ _ res ts1 h)

/-- Claim C8 (confirmed): the used-transforms set grows monotonically — the
facet-normal leaf, the transform applier and the argument-basis construction
only add tokens; every token present before a visit is still present after
it. -/
theorem trans_set_monotone :
    (∀ (fmt : Format) (r : Restriction) (components : List Nat)
        (operands : List CodeMap) (ts : Finset Token) (c : CodeMap) (ts1 : Finset Token),
        QT.facet_normal fmt r components operands ts = .ok (c, ts1) → ts ⊆ ts1) ∧
    (∀ (fmt : Format) (r : Restriction) (f? : Option Token) (derivatives multi : List Nat)
        (ts : Finset Token) (t : Token) (ts1 : Finset Token),
        applyTransform fmt r f? derivatives multi ts = .ok (t, ts1) → ts ⊆ ts1) ∧
    (∀ (env : ArgEnv) (derivatives : List Nat) (component local_comp local_offset : Nat)
        (transformation : Transformation) (multiindices : List (List Nat))
        (ts : Finset Token) (c : CodeMap) (ts1 : Finset Token),
        QT.create_argument env derivatives component local_comp local_offset transformation
          multiindices ts = .ok (c, ts1) → ts ⊆ ts1) := by
  refine ⟨?_, applyTransform_mono, ?_⟩
  · intro fmt r components operands ts c ts1 h
    rw [QT.facet_normal] at h
    by_cases hop : operands ≠ []
    · rw [if_pos hop] at h
      cases h
    · rw [if_neg hop] at h
      by_cases hcomp : components.length ≠ 1
      · rw [if_pos hcomp] at h
        cases h
      · rw [if_neg hcomp] at h
        cases h
        exact Finset.subset_insert _ ts
  · intro env derivatives component local_comp local_offset transformation multiindices ts c ts1 h
    rw [QT.create_argument] at h
    split at h
    · cases h
    · rename_i code ts2 heq
      cases h
      by_cases htr : transformation = .AFFINE
      · rw [if_pos htr] at heq
        exact argAffine_mono env derivatives component multiindices [] ts _ _ heq
      · rw [if_neg htr] at heq
        exact argPiolaOuter_mono env derivatives local_comp local_offset transformation
          multiindices [] ts _ _ heq

/-! ## Wrapper encapsulation claim -/

theorem pyIndex_at_len_sub_one (l : List String) (hn : l.length ≠ 0) :
    pyIndex l ((l.length : Int) - 1) = .ok (l.getD (l.length - 1) "") := by
  simp only [pyIndex]
  have h0 : ¬ ((l.length : Int) - 1 < 0) := by omega
  rw [if_neg h0]
  have hcond : 0 ≤ (l.length : Int) - 1 ∧ (l.length : Int) - 1 < (l.length : Int) := by omega
  rw [if_pos hcond]
  have ht : ((l.length : Int) - 1).toNat = l.length - 1 := by omega
  rw [ht]

theorem getLast?_eq_getD_of_ne_nil (l : List String) (hne : l ≠ []) :
    l.getLast? = some (l.getD (l.length - 1) "") := by
  induction l with
  | nil => cases hne rfl
  | cons a rest ih =>
    cases rest with
    | nil => rfl
    | cons b r =>
      have hlen : (a :: b :: r).length - 1 = (b :: r).length - 1 + 1 := by
        simp
      rw [hlen, List.getD_cons_succ, List.getLast?_cons_cons]
      exact ih (by simp)

/-- Claim C9 (confirmed): in the single-element encapsulation case the
wrapper selects the element, dofmap and coordinate-map class names at index
len(elements) - 1, i.e. for every non-empty element list it picks the last
entry of each class-name list (when the lists run parallel to the elements),
regardless of which element is requested — the function takes no request
parameter at all. -/
theorem encapsule_element_picks_last {α : Type} (cn : DolfinClassnames)
    (elements : List α) (hne : elements ≠ [])
    (h1 : cn.elements.length = elements.length)
    (h2 : cn.dofmaps.length = elements.length)
    (h3 : cn.coordinate_mapppings.length = elements.length) :
    encapsule_element cn elements
      = .ok ⟨"0", [cn.elements.getD (elements.length - 1) ""],
                  [cn.dofmaps.getD (elements.length - 1) ""],
                  [cn.coordinate_mapppings.getD (elements.length - 1) ""]⟩ ∧
    cn.elements.getLast? = some (cn.elements.getD (elements.length - 1) "") := by
  have hn : elements.length ≠ 0 := by
    simpa using hne
  constructor
  · simp only [encapsule_element]
    rw [show ((elements.length : Int) - 1) = ((cn.elements.length : Int) - 1) by rw [h1]]
    rw [pyIndex_at_len_sub_one cn.elements (by rw [h1]; exact hn)]
    rw [show ((cn.elements.length : Int) - 1) = ((cn.dofmaps.length : Int) - 1) by
      rw [h1, h2]]
    rw [pyIndex_at_len_sub_one cn.dofmaps (by rw [h2]; exact hn)]
    rw [show ((cn.dofmaps.length : Int) - 1) = ((cn.coordinate_mapppings.length : Int) - 1) by
      rw [h2, h3]]
    rw [pyIndex_at_len_sub_one cn.coordinate_mapppings (by rw [h3]; exact hn)]
    rw [h1, h2, h3]
  · have hcne : cn.elements ≠ [] := by
      intro he
      apply hne
      rw [he] at h1
      have : elements.length = 0 := h1.symm
      simpa using this
    rw [← h1]
    exact getLast?_eq_getD_of_ne_nil cn.elements hcne

/-! ## Witnesses: concrete instantiations of the claim theorems. -/

/-- Witness for C1: summing the token "t" three times for the scalar key
produces the duplicate-collapsed multiply(float(3), "t"). -/
theorem sum_duplicate_reduction_witness :
    ∃ res, QT.sum fmtS [[([], some "t")], [([], some "t")], [([], some "t")]] = .ok res ∧
      findEntry res [] = some (some (fmtS.multiply [fmtS.floating_point ((3 : Nat) : ℚ), "t"])) :=
  sum_duplicate_reduction fmtS [[([], some "t")], [([], some "t")], [([], some "t")]]
    [] [some "t", some "t", some "t"] rfl (by decide)

/-- Witness for C5: summing a single code map returns it unchanged. -/
theorem sum_single_token_and_zero_witness :
    QT.sum fmtS [[([], some "A"), ([0], none)]] = .ok [([], some "A"), ([0], none)] :=
  (sum_single_token_and_zero fmtS).2.2 [([], some "A"), ([0], none)] (by decide)

/-- Witness for C2 (amended): the colliding sorted key keeps only the later
permutation entry's product. -/
theorem product_canonical_keys_overwrite_witness :
    productPermLoop fmtS [] [([0, 1], [some "a", some "d"]), ([1, 0], [some "b", some "c"])] []
      = .ok [(pySorted [1, 0], some (fmtS.multiply (padOne ["b", "c"])))] :=
  (product_canonical_keys_overwrite fmtS).2 [] [0, 1] [some "a", some "d"] [1, 0]
    [some "b", some "c"] ["a", "d"] ["b", "c"] rfl rfl rfl

/-- Witness for C6: identity tokens are dropped by the fold, and a product of
scalar operands "x" and "1" gives multiply(["x"]). -/
theorem product_fold_rules_witness :
    foldVals [some "x", some "1", some "y"] [] = .value ["x", "y"] ∧
    QT.product fmtS [[([], some "x")], [([], some "1")]] = .ok [([], some "x")] := by
  constructor
  · exact (product_fold_rules fmtS).1 [some "x", some "1", some "y"] []
      (by intro v hv; fin_cases hv <;> exact ⟨_, rfl, by decide⟩)
  · exact (product_fold_rules fmtS).2.2.2.2.2.2.1 [some "x", some "1"] ["x"] rfl

/-- Witness for C3: wrong arity, symbolic-zero denominator, and a normal
division at concrete inputs. -/
theorem division_rules_witness :
    QT.division fmtS []
      = .error (.ffcError "Expected exactly two operands (numerator and denominator)") ∧
    QT.division fmtS [[([], some "x")], [([], none)]]
      = .error (.ffcError "Division by zero!") ∧
    QT.division fmtS [[([], some "x")], [([], some "y")]]
      = .ok [([], some ("x" ++ fmtS.division ++ fmtS.grouping "y"))] := by
  refine ⟨(division_rules fmtS).1 [] (by decide), ?_, ?_⟩
  · exact (division_rules fmtS).2.2.1 [([], some "x")] [([], none)] rfl rfl
  · exact (division_rules fmtS).2.2.2 [([], some "x")] [([], some "y")] "y" rfl rfl

/-- Witness for C4: the four exponent dispatch outcomes and the rank-0 base
check at concrete inputs. -/
theorem power_dispatch_witness :
    QT.power fmtS [([0], some "x")] (.intValue 2)
      = .error (.ffcError "Only support function type base") ∧
    QT.power fmtS [([], some "x")] (.intValue 2) = .ok [([], some (fmtS.power "x" 2))] ∧
    QT.power fmtS [([], some "x")] (.floatValue 2)
      = .ok [([], some (fmtS.std_power "x" (fmtS.floating_point 2)))] ∧
    QT.power fmtS [([], some "x")] (.coefficient [([], some "w")])
      = .ok [([], some (fmtS.std_power "x" "w"))] ∧
    QT.power fmtS [([], some "x")] .other
      = .error (.ffcError "power does not support this exponent") := by
  refine ⟨(power_dispatch fmtS).1 [([0], some "x")] (.intValue 2) (by decide),
    (power_dispatch fmtS).2.1 "x" 2, (power_dispatch fmtS).2.2.1 "x" 2, ?_,
    (power_dispatch fmtS).2.2.2.2 "x"⟩
  exact (power_dispatch fmtS).2.2.2.1 "x" "w" [([], some "w")] rfl

/-- Witness for C7: one derivative position with matching multi-index. -/
theorem apply_transform_spec_witness :
    ∃ ts2 : Finset Token,
      (∀ f : Token, f ≠ "" →
        applyTransform fmtS .no (some f) [2] [0] ∅
          = .ok (fmtS.multiply (transformsOf fmtS .no [2] [0] ++ [f]), ts2)) ∧
      applyTransform fmtS .no none [2] [0] ∅
        = .ok (fmtS.multiply (transformsOf fmtS .no [2] [0]), ts2) ∧
      (∅ : Finset Token) ⊆ ts2 ∧
      (∀ t ∈ transformsOf fmtS .no [2] [0], t ∈ ts2) :=
  apply_transform_spec fmtS .no [2] [0] ∅ rfl

/-- Witness for C8: a facet-normal visit only grows a pre-populated set. -/
theorem trans_set_monotone_witness :
    ({"x"} : Finset Token) ⊆ insert (fmtS.normal_component .no 0) {"x"} :=
  trans_set_monotone.1 fmtS .no [0] [] {"x"}
    [([], some (fmtS.normal_component .no 0))]
    (insert (fmtS.normal_component .no 0) {"x"}) rfl

/-- Witness for C9: two elements, the capsule always holds the second
(last) class names. -/
theorem encapsule_element_picks_last_witness :
    encapsule_element ⟨["E0", "E1"], ["D0", "D1"], ["C0", "C1"]⟩ ["a", "b"]
      = .ok ⟨"0", [List.getD ["E0", "E1"] 1 ""], [List.getD ["D0", "D1"] 1 ""],
                  [List.getD ["C0", "C1"] 1 ""]⟩ ∧
    (["E0", "E1"] : List String).getLast? = some (List.getD ["E0", "E1"] 1 "") :=
  encapsule_element_picks_last ⟨["E0", "E1"], ["D0", "D1"], ["C0", "C1"]⟩
    ["a", "b"] (by decide) rfl rfl rfl

/-- Witness for C10: a coefficient exponent whose visited map lacks the empty
key fails with the raw lookup error, and the designated unsupported-exponent
error appears exactly for the other exponent kind. -/
theorem power_coefficient_missing_key_witness :
    QT.power fmtS [([], some "x")] (.coefficient [([0], some "e")]) = .error .keyError ∧
    Expo.other = Expo.other := by
  constructor
  · exact (power_coefficient_missing_key fmtS).1 "x" [([0], some "e")] rfl
  · exact (power_coefficient_missing_key fmtS).2 [([], some "x")] .other rfl
